import Mathlib

/-!
A verification development for the stheno repository (Gaussian-process
computation graph).  The Python modules `stheno/cache.py` and
`stheno/random.py` are embedded shallowly below; the structured-covariance
(SPD) family and the graph conditioning engine, whose source module is not
part of this distribution (only its tests are), are modelled from the
specification where noted.
-/

namespace Stheno

/- ------------------------------------------------------------------ -/
/- Embedding of `stheno/cache.py`.                                     -/
/- ------------------------------------------------------------------ -/

/-- A Python value as it can occur in a cache key.  Scalars (`int`, `str`,
`bool`) carry their value; an arbitrary object carries its identity
(`objId`, the result of Python's `id`) and a payload `val` standing for its
structural contents (two objects with the same payload compare equal under
`==` while remaining distinct instances); tuples and lists carry their
elements. -/
inductive PyVal where
  | int (n : Int)
  | str (s : String)
  | bool (b : Bool)
  | obj (objId : Nat) (val : Int)
  | tup (xs : List PyVal)
  | pylist (xs : List PyVal)

/-- A resolved cache key, the codomain of `Cache._resolve`
(`cache.py` lines 30-40): scalars resolve to themselves, an arbitrary
object resolves to `id(key)`, and tuples/lists resolve componentwise to a
tuple of resolved elements.  The resolved tuple is encoded as a cons list
(`tnil`/`tcons`) so that key equality is structural. -/
inductive RKey where
  | int (n : Int)
  | str (s : String)
  | bool (b : Bool)
  | objid (i : Nat)
  | tnil
  | tcons (hd tl : RKey)
  deriving DecidableEq, Repr

/-- The resolved tuple key formed from a list of resolved components. -/
def RKey.tupOf : List RKey → RKey
  | [] => .tnil
  | k :: ks => .tcons k (RKey.tupOf ks)

mutual

/-- `Cache._resolve` (`cache.py` lines 30-40): dispatch on the key's type. -/
def Cache.resolve : PyVal → RKey
  | .int n => .int n
  | .str s => .str s
  | .bool b => .bool b
  | .obj i _ => .objid i
  | .tup xs => RKey.tupOf (Cache.resolveList xs)
  | .pylist xs => RKey.tupOf (Cache.resolveList xs)

/-- Componentwise resolution of a tuple/list of keys
(`tuple(self._resolve(x) for x in key)`). -/
def Cache.resolveList : List PyVal → List RKey
  | [] => []
  | x :: xs => Cache.resolve x :: Cache.resolveList xs

end

/-- The matrix values stored by the cache; `B.transpose` belongs to the
out-of-scope numeric backend and is modelled by list-of-rows
transposition. -/
abbrev Mat := List (List Int)

/-- The backend's `B.transpose`. -/
def Btranspose (m : Mat) : Mat := m.transpose

/-- The mutable state of a `Cache` instance (`cache.py` lines 24-28):
`cache_call` models the `_cache_call` dictionary (an association list whose
most recent binding wins) and `depth` the `depth` counter.  The `_cache_lab`
dictionary and `_start` timestamp only serve the backend-call cache and the
log timestamps, which no claim touches. -/
structure Cache where
  cache_call : List (RKey × Mat)
  depth : Int
  deriving DecidableEq, Repr

/-- A freshly constructed `Cache`: empty dictionary, `depth = 0`. -/
def Cache.init : Cache := ⟨[], 0⟩

/-- Dictionary lookup, `cache[key]` via `__getitem__` (raises `KeyError`
when absent, modelled by `none`). -/
def Cache.find (c : Cache) (k : RKey) : Option Mat :=
  c.cache_call.lookup k

/-- Dictionary assignment, `cache[key] = output` via `__setitem__`. -/
def Cache.store (c : Cache) (k : RKey) (v : Mat) : Cache :=
  { c with cache_call := (k, v) :: c.cache_call }

/-- The resolved key under which `cache[self, inputs]` is stored: the pair
`(self, inputs)` is a tuple whose first component is the owner object and
whose second is the tuple of inputs. -/
def callKey (ownerId : Nat) (inputs : List PyVal) : RKey :=
  Cache.resolve (.tup [.obj ownerId 0, .tup inputs])

/-- Result of one decorated `__call__` (`cache.py` lines 80-104): the
returned value, the cache state afterwards, the number of direct
invocations of the wrapped computation `f`, and the successive values
assigned to `cache.depth` during the call. -/
structure CallResult where
  out : Mat
  cache : Cache
  fCalls : Nat
  depths : List Int
  deriving DecidableEq, Repr

/-- The decorated `__call__` produced by `cache` (`cache.py` lines 77-106).
The wrapped computation `f` receives the cache (its nested cached calls may
mutate it) and returns its output together with the updated cache.  Forward
hit: return the stored value.  Otherwise reversed hit: return the transpose
of the value stored under the reversed input tuple.  Otherwise full miss:
increment `depth`, run `f`, store its output under the forward key,
decrement `depth`, and return the freshly stored entry. -/
def cachedCall (f : Nat → List PyVal → Cache → Mat × Cache)
    (ownerId : Nat) (inputs : List PyVal) (c : Cache) : CallResult :=
  let key := callKey ownerId inputs
  match c.find key with
  | some out => ⟨out, c, 0, []⟩
  | none =>
    match c.find (callKey ownerId inputs.reverse) with
    | some out => ⟨Btranspose out, c, 0, []⟩
    | none =>
      let c1 : Cache := { c with depth := c.depth + 1 }
      let fc := f ownerId inputs c1
      let c3 := fc.2.store key fc.1
      let c4 : Cache := { c3 with depth := c3.depth - 1 }
      ⟨(c4.find key).getD [], c4, 1, [c1.depth, c4.depth]⟩

/- ------------------------------------------------------------------ -/
/- Embedding of `stheno/random.py`.                                    -/
/- ------------------------------------------------------------------ -/

/-- The Python exceptions raised by the embedded code. -/
inductive PyErr where
  | notImplemented (msg : String)
  | runtimeError (msg : String)
  deriving DecidableEq, Repr

/-- The `_mean` attribute of a `Normal` as constructed: the Python literal
`0` (the default used by the one-argument constructor), an instance of the
structured `Zero` matrix type, or an ordinary materialized column vector. -/
inductive MeanState where
  | pyZero
  | zeroMat
  | mat (m : Mat)
  deriving DecidableEq, Repr

/-- Elementwise matrix addition (backend `+` on equally shaped operands). -/
def addM (a b : Mat) : Mat :=
  a.zipWith (fun ra rb => ra.zipWith (fun x y => x + y) rb) b

/-- `B.fill_diag(c, n)`: the n×n diagonal matrix with `c` on the diagonal. -/
def fillDiag (c : Int) (n : Nat) : Mat :=
  (List.range n).map (fun i => (List.range n).map (fun j => if i = j then c else 0))

/-- `B.zeros(dtype, n, 1)`: an n×1 column of zeros. -/
def zerosM (n : Nat) : Mat := (List.range n).map (fun _ => [0])

/-- Broadcasting addition of an n×1 mean column to an n×num sample matrix
(`sample + self.mean`). -/
def addMeanBroadcast (s m : Mat) : Mat :=
  s.zipWith (fun row mrow => row.map (fun x => x + mrow.headD 0)) m

/-- Broadcasting addition of a scalar to a matrix (`self.mean + other`). -/
def addScalarM (m : Mat) (c : Int) : Mat := m.map (List.map (fun x => x + c))

/-- Broadcasting multiplication of a matrix by a scalar. -/
def mulScalarM (m : Mat) (c : Int) : Mat := m.map (List.map (fun x => x * c))

/-- `B.dense`: densify; the identity on the dense model. -/
def Bdense (m : Mat) : Mat := m

/-- A `Normal` random variable (`random.py` lines 45-124) after its mean
has been constructed (`_mean = self._construct_mean()` already run):
`meanRaw` is `_mean` as stored, `var` the variance matrix. -/
structure Normal where
  meanRaw : MeanState
  var : Mat
  deriving DecidableEq, Repr

/-- `self.dim`: the number of rows of the variance (`B.shape(self.var)[0]`). -/
def Normal.dim (N : Normal) : Nat := N.var.length

/-- The `mean_is_zero` property: `_resolve_mean(construct_zeros=False)`
sets `_mean_is_zero = self._mean is 0 or isinstance(self._mean, Zero)`
(`random.py` line 86). -/
def Normal.mean_is_zero (N : Normal) : Bool :=
  match N.meanRaw with
  | .pyZero => true
  | .zeroMat => true
  | .mat _ => false

/-- The `mean` property: `_resolve_mean(construct_zeros=True)` replaces the
Python literal `0` by `B.zeros(self.dtype, self.dim, 1)`; a structured
`Zero` instance densifies to the same zeros column. -/
def Normal.mean (N : Normal) : Mat :=
  match N.meanRaw with
  | .pyZero => zerosM N.dim
  | .zeroMat => zerosM N.dim
  | .mat m => m

/-- `Normal.sample(num, noise)` (`random.py` lines 210-233): when `noise`
is given, the variance is replaced by `B.fill_diag(noise, self.dim) +
self.var` (diagonal operator first in the sum) before the backend sampling
primitive `B.sample` runs; the mean is added to the drawn sample exactly
when `mean_is_zero` is false; the result is densified.  The backend
primitive is an explicit argument `samplePrim`. -/
def Normal.sample (N : Normal) (samplePrim : Mat → Nat → Mat) (num : Nat)
    (noise : Option Int) : Mat :=
  let var := N.var
  let var := match noise with
    | none => var
    | some c => addM (fillDiag c N.dim) N.var
  let s := samplePrim var num
  let s := if N.mean_is_zero then s else addMeanBroadcast s N.mean
  Bdense s

/-- The `Normal` holding the same mean state and the noise-augmented
variance `B.fill_diag(noise, dim) + var`. -/
def Normal.noiseAugmented (N : Normal) (c : Int) : Normal :=
  ⟨N.meanRaw, addM (fillDiag c N.dim) N.var⟩

/-- The right operand of `Normal.__add__` / `Normal.__mul__` as seen by the
plum dispatcher: another `Normal` (`Self`), a `Random` object that is not a
`Normal` (carrying its type name), or a plain non-`Random` object (a
scalar). -/
inductive Operand where
  | normal (m : Normal)
  | randomOther (typeName : String)
  | plain (c : Int)

/-- `Normal.__add__` (`random.py` lines 235-247): the most specific plum
dispatch wins — `Self` builds the sum of means and variances, `Random`
raises `NotImplementedError` naming the operand's type, and `object`
(a scalar) shifts the mean, keeping the variance. -/
def Normal.add (N : Normal) : Operand → Except PyErr Normal
  | .normal M => .ok ⟨.mat (addM N.mean M.mean), addM N.var M.var⟩
  | .randomOther t =>
      .error (.notImplemented ("Cannot add a normal and a \"" ++ t ++ "\"."))
  | .plain c => .ok ⟨.mat (addScalarM N.mean c), N.var⟩

/-- `Normal.__mul__` (`random.py` lines 249-257): there is no `Self`
overload, so any `Random` operand — a `Normal` included — hits the
`Random` branch and raises `NotImplementedError` (its message keeps the
stray `f` of the source's malformed f-string); a plain scalar scales the
mean by `c` and the variance by `c²`. -/
def Normal.mul (N : Normal) : Operand → Except PyErr Normal
  | .normal _ =>
      .error (.notImplemented ("Cannot multiply a normal and a f\"Normal\"."))
  | .randomOther t =>
      .error (.notImplemented ("Cannot multiply a normal and a f\"" ++ t ++ "\"."))
  | .plain c => .ok ⟨.mat (mulScalarM N.mean c), mulScalarM N.var (c * c)⟩

/- ------------------------------------------------------------------ -/
/- Model of the structured covariance operators (`stheno/spd.py`).     -/
/- ------------------------------------------------------------------ -/

/-- Modelled from the spec: `stheno/spd.py` is not under src/ (only
`tests/test_spd.py` is).  The structured covariance operator family of
§4.1: `SPD` (dense), `Diagonal`, `UniformDiagonal` (scalar times
identity), and `LowRank` (an n×k factor `f`, the operator being
`f·fᵀ`), over exact rationals in place of backend floats. -/
inductive SPDOp (n : Nat) where
  | dense (m : Matrix (Fin n) (Fin n) ℚ)
  | diagonal (d : Fin n → ℚ)
  | uniformDiagonal (c : ℚ)
  | lowRank (k : Nat) (f : Matrix (Fin n) (Fin k) ℚ)

/-- The structure (Python class) of an operator. -/
inductive SPDTag where
  | dense
  | diagonal
  | uniformDiagonal
  | lowRank
  deriving DecidableEq, Repr

/-- The structure tag of an operator. -/
def SPDOp.tag {n : Nat} : SPDOp n → SPDTag
  | .dense _ => .dense
  | .diagonal _ => .diagonal
  | .uniformDiagonal _ => .uniformDiagonal
  | .lowRank _ _ => .lowRank

/-- Modelled from the spec: `mat`, the dense n×n materialization of a
structured operator (§4.1). -/
def SPDOp.mat {n : Nat} : SPDOp n → Matrix (Fin n) (Fin n) ℚ
  | .dense m => m
  | .diagonal d => Matrix.diagonal d
  | .uniformDiagonal c => Matrix.diagonal (fun _ => c)
  | .lowRank _ f => f * f.transpose

/-- Modelled from the spec: operator addition following the closure table
of §4.1 — Diagonal/UniformDiagonal combinations stay structured, every
pair involving Dense or LowRank materializes to Dense with the elementwise
sum. -/
def SPDOp.add {n : Nat} : SPDOp n → SPDOp n → SPDOp n
  | .diagonal d, .diagonal e => .diagonal (fun i => d i + e i)
  | .diagonal d, .uniformDiagonal c => .diagonal (fun i => d i + c)
  | .uniformDiagonal c, .diagonal d => .diagonal (fun i => c + d i)
  | .uniformDiagonal c, .uniformDiagonal e => .uniformDiagonal (c + e)
  | a, b => .dense (a.mat + b.mat)

/-- Modelled from the spec: elementwise operator multiplication following
the closure table of §4.1. -/
def SPDOp.mul {n : Nat} : SPDOp n → SPDOp n → SPDOp n
  | .diagonal d, .diagonal e => .diagonal (fun i => d i * e i)
  | .diagonal d, .uniformDiagonal c => .diagonal (fun i => d i * c)
  | .uniformDiagonal c, .diagonal d => .diagonal (fun i => c * d i)
  | .uniformDiagonal c, .uniformDiagonal e => .uniformDiagonal (c * e)
  | a, b => .dense (Matrix.hadamard a.mat b.mat)

/-- Modelled from the spec: multiplication of a structured operator by a
plain scalar preserves the operator's structure (§4.1); a LowRank factor
is scaled in place of the unrepresentable rational square root. -/
def SPDOp.scalarMul {n : Nat} (s : ℚ) : SPDOp n → SPDOp n
  | .dense m => .dense (s • m)
  | .diagonal d => .diagonal (fun i => s * d i)
  | .uniformDiagonal c => .uniformDiagonal (s * c)
  | .lowRank k f => .lowRank k (s • f)

/-- Modelled from the spec: addition of a plain scalar shifts every entry
of the dense materialization and therefore yields a Dense operator (§4.1);
`__radd__` delegates to the same computation, so both operand orders agree. -/
def SPDOp.scalarAdd {n : Nat} (s : ℚ) (a : SPDOp n) : SPDOp n :=
  .dense (Matrix.of fun i j => s + a.mat i j)

/-- The closure table of §4.1 for two structured operands (one entry per
pair, shared by `+` and `*`). -/
def pairTag : SPDTag → SPDTag → SPDTag
  | .diagonal, .diagonal => .diagonal
  | .diagonal, .uniformDiagonal => .diagonal
  | .uniformDiagonal, .diagonal => .diagonal
  | .uniformDiagonal, .uniformDiagonal => .uniformDiagonal
  | _, _ => .dense

/-- Rational matrix inverse via the adjugate, `A⁻¹ = det(A)⁻¹·adj(A)`;
agrees with the backend inverse on invertible matrices. -/
def matInv {n : Nat} (M : Matrix (Fin n) (Fin n) ℚ) : Matrix (Fin n) (Fin n) ℚ :=
  (M.det)⁻¹ • M.adjugate

/-- The singular-operator error (§4.1: a `RuntimeError`). -/
def singularErr : PyErr := .runtimeError ("Matrix is singular.")

/-- Modelled from the spec: an operator is singular by construction exactly
when it is LowRank with a factor of fewer than `n` columns (factor rank
necessarily `< n`, §4.1). -/
def SPDOp.isSingular {n : Nat} : SPDOp n → Bool
  | .lowRank k _ => decide (k < n)
  | _ => false

/-- Modelled from the spec: `inv_prod(B) = A⁻¹·B`; fails on a singular
operator. -/
def SPDOp.inv_prod {n p : Nat} (A : SPDOp n) (b : Matrix (Fin n) (Fin p) ℚ) :
    Except PyErr (Matrix (Fin n) (Fin p) ℚ) :=
  if A.isSingular then .error singularErr
  else .ok (matInv A.mat * b)

/-- Modelled from the spec: `quadratic_form(a) = aᵀ·A⁻¹·a`; fails on a
singular operator. -/
def SPDOp.quadratic_form {n p : Nat} (A : SPDOp n)
    (a : Matrix (Fin n) (Fin p) ℚ) : Except PyErr (Matrix (Fin p) (Fin p) ℚ) :=
  if A.isSingular then .error singularErr
  else .ok (a.transpose * matInv A.mat * a)

/-- Modelled from the spec: `quadratic_form(a, b) = aᵀ·A⁻¹·b`; fails on a
singular operator. -/
def SPDOp.quadratic_form2 {n p q : Nat} (A : SPDOp n)
    (a : Matrix (Fin n) (Fin p) ℚ) (b : Matrix (Fin n) (Fin q) ℚ) :
    Except PyErr (Matrix (Fin p) (Fin q) ℚ) :=
  if A.isSingular then .error singularErr
  else .ok (a.transpose * matInv A.mat * b)

/-- Modelled from the spec: `quadratic_form_diag(a)`, only the diagonal of
the quadratic form; fails on a singular operator. -/
def SPDOp.quadratic_form_diag {n p : Nat} (A : SPDOp n)
    (a : Matrix (Fin n) (Fin p) ℚ) : Except PyErr (Fin p → ℚ) :=
  if A.isSingular then .error singularErr
  else .ok (fun j => (a.transpose * matInv A.mat * a) j j)

/-- Modelled from the spec: `mah_dist2(a)`, the squared Mahalanobis
distances of the columns of `a` under `A⁻¹`; fails on a singular
operator. -/
def SPDOp.mah_dist2 {n p : Nat} (A : SPDOp n)
    (a : Matrix (Fin n) (Fin p) ℚ) : Except PyErr (Fin p → ℚ) :=
  if A.isSingular then .error singularErr
  else .ok (fun j => (a.transpose * matInv A.mat * a) j j)

/-- Modelled from the spec: `mah_dist2(a, b)`, the squared Mahalanobis
distances of the column differences `a - b` under `A⁻¹`; fails on a
singular operator. -/
def SPDOp.mah_dist2two {n p : Nat} (A : SPDOp n)
    (a b : Matrix (Fin n) (Fin p) ℚ) : Except PyErr (Fin p → ℚ) :=
  if A.isSingular then .error singularErr
  else .ok (fun j => ((a - b).transpose * matInv A.mat * (a - b)) j j)

/-- Modelled from the spec: `logdet()`; fails on a singular operator.  The
numeric logarithm belongs to the out-of-scope backend, so the success
value is modelled by the determinant whose logarithm the backend would
return. -/
def SPDOp.logdet {n : Nat} (A : SPDOp n) : Except PyErr ℚ :=
  if A.isSingular then .error singularErr
  else .ok A.mat.det

/- ------------------------------------------------------------------ -/
/- Model of the graph conditioning engine (`stheno/graph.py`).         -/
/- ------------------------------------------------------------------ -/

/-- Modelled from the spec: `stheno/graph.py` is not under src/ (only
`tests/test_graph.py` is).  The graph restricted to a fixed finite input
set `x` of size `m`: `K` is the prior kernel matrix of the zero-mean base
process `p1` at `x`. -/
structure GraphModel (m : Nat) where
  K : Matrix (Fin m) (Fin m) ℚ

/-- Modelled from the spec: a process derived from the single base process
`p1` by repeated graph summation, represented by its coefficient `c` (the
process `c·p1`); the graph's cross-covariance propagation
`cross-cov(p+q, r) = cross-cov(p,r) + cross-cov(q,r)` (§4.5) makes the
coefficient the whole state of such a process. -/
structure DerivedProcess where
  coeff : ℚ
  deriving DecidableEq, Repr

/-- The base process `p1` itself. -/
def baseP : DerivedProcess := ⟨1⟩

/-- Modelled from the spec: `graph.sum` on two derived processes; the sum
process's kernel and cross-covariances are the sums of its summands'
(§4.5), which on coefficients is addition. -/
def DerivedProcess.sumP (p q : DerivedProcess) : DerivedProcess :=
  ⟨p.coeff + q.coeff⟩

/-- Modelled from the spec: the graph's pairwise kernel table entry for two
derived processes evaluated at `x`: `k[c·p1, d·p1](x) = (c·d)·K`, the
unique table with `k[p1,p1](x) = K` consistent with the bilinear
cross-covariance propagation rule of §4.5. -/
def kernelAt {m : Nat} (G : GraphModel m) (p q : DerivedProcess) :
    Matrix (Fin m) (Fin m) ℚ :=
  (p.coeff * q.coeff) • G.K

/-- Modelled from the spec: the mean of a derived process at `x`; the base
process has zero mean and summation adds means, so every derived process
has zero mean. -/
def meanAt {m : Nat} (_G : GraphModel m) (_p : DerivedProcess) :
    Matrix (Fin m) (Fin 1) ℚ := 0

/-- `p1` summed with itself `n` times (`selfSum 5 = p1+p1+p1+p1+p1`). -/
def selfSum : Nat → DerivedProcess
  | 0 => ⟨0⟩
  | n + 1 => DerivedProcess.sumP (selfSum n) baseP

/-- Modelled from the spec: the Gaussian conditioning identity of §4.5,
`posterior_mean(f) = mean(f) + cross-cov(f,x)·K(x,x)⁻¹·(y − mean(x))`,
for observing the base process `p1` at `x` with values `y`. -/
def postMean {m : Nat} (G : GraphModel m) (f : DerivedProcess)
    (y : Matrix (Fin m) (Fin 1) ℚ) : Matrix (Fin m) (Fin 1) ℚ :=
  meanAt G f + kernelAt G f baseP * matInv G.K * (y - meanAt G baseP)

/- ------------------------------------------------------------------ -/
/- Theorems: the cache (`stheno/cache.py`).                            -/
/- ------------------------------------------------------------------ -/

theorem Cache.find_store_self (c : Cache) (k : RKey) (v : Mat) :
    (c.store k v).find k = some v := by
  simp [Cache.store, Cache.find, List.lookup]

theorem Cache.find_init (k : RKey) : Cache.init.find k = none := rfl

/-- Resolution of `(self, inputs)` pairs: the stored key is the tuple of
the owner's identity and the componentwise-resolved input tuple. -/
theorem callKey_eq (ownerId : Nat) (inputs : List PyVal) :
    callKey ownerId inputs =
      RKey.tupOf [.objid ownerId, RKey.tupOf (Cache.resolveList inputs)] := by
  simp [callKey, Cache.resolve, Cache.resolveList]

/-- C1: a cache-decorated `__call__` computes at most once per forward
key.  First conjunct: any single call invokes the wrapped computation at
most once, and an immediate second call with the same owner and argument
tuple invokes it zero times, returns the same value, and leaves the cache
unchanged.  Second conjunct: when the forward key misses but the reversed
argument tuple is cached, the call returns the transpose of the stored
result without invoking the computation and without touching the cache.
Third conjunct: on a full miss the computation runs exactly once, its
output is stored under the forward key, and the returned value is the
stored entry. -/
theorem cachedCall_memoizes (f : Nat → List PyVal → Cache → Mat × Cache)
    (o : Nat) (xs : List PyVal) (c : Cache) :
    ((cachedCall f o xs c).fCalls ≤ 1
      ∧ (cachedCall f o xs ((cachedCall f o xs c).cache)).fCalls = 0
      ∧ (cachedCall f o xs ((cachedCall f o xs c).cache)).out
          = (cachedCall f o xs c).out
      ∧ (cachedCall f o xs ((cachedCall f o xs c).cache)).cache
          = (cachedCall f o xs c).cache)
    ∧ (∀ v, c.find (callKey o xs) = none →
        c.find (callKey o xs.reverse) = some v →
        cachedCall f o xs c = ⟨Btranspose v, c, 0, []⟩)
    ∧ (c.find (callKey o xs) = none →
        c.find (callKey o xs.reverse) = none →
        (cachedCall f o xs c).fCalls = 1
        ∧ (cachedCall f o xs c).out
            = (f o xs { c with depth := c.depth + 1 }).1
        ∧ (cachedCall f o xs c).cache.find (callKey o xs)
            = some ((cachedCall f o xs c).out)) := by
  refine ⟨?_, ?_, ?_⟩
  · rcases h1 : c.find (callKey o xs) with _ | v
    · rcases h2 : c.find (callKey o xs.reverse) with _ | w
      · simp only [cachedCall, h1, h2]
        simp [Cache.find_store_self, Cache.find, Cache.store, List.lookup]
      · simp [cachedCall, h1, h2]
    · simp [cachedCall, h1]
  · intro v h1 h2
    simp [cachedCall, h1, h2]
  · intro h1 h2
    simp only [cachedCall, h1, h2]
    simp [Cache.find_store_self, Cache.find, Cache.store, List.lookup]

/-- Witness for C1: a concrete full miss on a fresh cache computes once,
stores the output under the forward key, and returns it. -/
theorem cachedCall_memoizes_witness :
    (cachedCall (fun _ _ c => ([[5]], c)) 7 [.int 1, .int 2] Cache.init).fCalls = 1
    ∧ (cachedCall (fun _ _ c => ([[5]], c)) 7 [.int 1, .int 2] Cache.init).cache.find
        (callKey 7 [.int 1, .int 2])
        = some ((cachedCall (fun _ _ c => ([[5]], c)) 7 [.int 1, .int 2] Cache.init).out) := by
  have h := (cachedCall_memoizes (fun _ _ c => ([[5]], c)) 7
      [.int 1, .int 2] Cache.init).2.2 rfl rfl
  exact ⟨h.1, h.2.2⟩

/-- C10: a reversed-argument hit is a pure read.  Under a forward miss
with the reversed argument tuple cached, the call stores nothing (the
cache state, its stored mapping included, is exactly the state before),
the wrapped computation does not run, the transpose of the stored entry is
returned, and a subsequent call with the same forward order is the very
same reversed-path computation again. -/
theorem reversedHit_frame (f : Nat → List PyVal → Cache → Mat × Cache)
    (o : Nat) (xs : List PyVal) (c : Cache) (v : Mat)
    (h1 : c.find (callKey o xs) = none)
    (h2 : c.find (callKey o xs.reverse) = some v) :
    (cachedCall f o xs c).cache = c
    ∧ (cachedCall f o xs c).cache.cache_call = c.cache_call
    ∧ (cachedCall f o xs c).fCalls = 0
    ∧ (cachedCall f o xs c).out = Btranspose v
    ∧ cachedCall f o xs ((cachedCall f o xs c).cache) = cachedCall f o xs c := by
  have hr : cachedCall f o xs c = ⟨Btranspose v, c, 0, []⟩ := by
    simp [cachedCall, h1, h2]
  refine ⟨by rw [hr], by rw [hr], by rw [hr], by rw [hr], ?_⟩
  rw [hr]
  exact hr

/-- Witness for C10: a concrete cache holding only the reversed key is
left unchanged and the transposed entry is returned. -/
theorem reversedHit_frame_witness :
    (cachedCall (fun _ _ c => ([[9]], c)) 3 [.int 1, .int 2]
        (Cache.init.store (callKey 3 [.int 2, .int 1]) [[5, 6]])).cache
      = Cache.init.store (callKey 3 [.int 2, .int 1]) [[5, 6]]
    ∧ (cachedCall (fun _ _ c => ([[9]], c)) 3 [.int 1, .int 2]
        (Cache.init.store (callKey 3 [.int 2, .int 1]) [[5, 6]])).out
      = Btranspose [[5, 6]] := by
  have h := reversedHit_frame (fun _ _ c => ([[9]], c)) 3 [.int 1, .int 2]
      (Cache.init.store (callKey 3 [.int 2, .int 1]) [[5, 6]]) [[5, 6]]
      (by decide) (by decide)
  exact ⟨h.1, h.2.2.2.1⟩

/-- C7 counterexample: the depth counter is not monotonically increasing.
On a fresh cache (depth `0`) a single full-miss call assigns `depth` the
successive values `1` (before the wrapped computation, `cache.py` line 99)
and then `0` (after it, line 101): the second assignment decreases the
counter. -/
theorem depth_not_monotone :
    Cache.init.depth = 0
    ∧ (cachedCall (fun _ _ c => ([[1]], c)) 1 [.int 0] Cache.init).depths = [1, 0]
    ∧ ¬ ((1 : Int) ≤ 0) := by
  refine ⟨rfl, ?_, by decide⟩
  decide

/-- C7 amended: `depth` starts at `0` on a fresh cache and is a balanced
nesting counter, not a monotone one: a call either leaves it untouched (on
either kind of hit) or assigns it `depth + 1` before the wrapped
computation and restores `depth` after it; provided the wrapped
computation itself preserves the counter (as nested balanced cached calls
do), every completed call leaves `depth` exactly as it found it. -/
theorem depth_balanced (f : Nat → List PyVal → Cache → Mat × Cache)
    (o : Nat) (xs : List PyVal) (c : Cache)
    (hf : ∀ c', (f o xs c').2.depth = c'.depth) :
    Cache.init.depth = 0
    ∧ (cachedCall f o xs c).cache.depth = c.depth
    ∧ ((cachedCall f o xs c).depths = []
        ∨ (cachedCall f o xs c).depths = [c.depth + 1, c.depth]) := by
  refine ⟨rfl, ?_, ?_⟩
  · rcases h1 : c.find (callKey o xs) with _ | v
    · rcases h2 : c.find (callKey o xs.reverse) with _ | w
      · simp [cachedCall, h1, h2, Cache.store, hf]
      · simp [cachedCall, h1, h2]
    · simp [cachedCall, h1]
  · rcases h1 : c.find (callKey o xs) with _ | v
    · rcases h2 : c.find (callKey o xs.reverse) with _ | w
      · right; simp [cachedCall, h1, h2, Cache.store, hf]
      · left; simp [cachedCall, h1, h2]
    · left; simp [cachedCall, h1]

/-- Witness for C7's amended statement: a concrete depth-preserving
computation on a fresh cache leaves `depth` at `0` and records the
balanced assignment pair `[1, 0]`. -/
theorem depth_balanced_witness :
    (cachedCall (fun _ _ c => ([[1]], c)) 1 [.int 0] Cache.init).cache.depth = 0
    ∧ ((cachedCall (fun _ _ c => ([[1]], c)) 1 [.int 0] Cache.init).depths = []
        ∨ (cachedCall (fun _ _ c => ([[1]], c)) 1 [.int 0] Cache.init).depths
            = [0 + 1, 0]) := by
  have h := depth_balanced (fun _ _ c => ([[1]], c)) 1 [.int 0] Cache.init
      (fun _ => rfl)
  exact ⟨h.2.1, h.2.2⟩

/-- Componentwise resolution: `_resolve` maps a tuple or list to the tuple
of resolved components. -/
theorem resolveList_eq_map (xs : List PyVal) :
    Cache.resolveList xs = xs.map Cache.resolve := by
  induction xs with
  | nil => rfl
  | cons x xs ih => simp [Cache.resolveList, ih]

/-- The tuple-key encoding is injective. -/
theorem tupOf_inj (ks ls : List RKey) :
    RKey.tupOf ks = RKey.tupOf ls ↔ ks = ls := by
  induction ks generalizing ls with
  | nil => cases ls <;> simp [RKey.tupOf]
  | cons k ks ih =>
    cases ls <;> simp [RKey.tupOf]
    intro _
    exact ih _

/-- C6: key resolution is deterministic (it is a function) and
order-sensitive.  Tuples and lists resolve componentwise to the tuple of
resolved elements, and two tuples resolve to colliding keys exactly when
their componentwise resolutions agree (so order matters); an `int`, `str`
or `bool` scalar resolves by value, so value-equal scalars collide
exactly; any other object resolves to its identity, so two objects
collide exactly when they are the same instance, never merely because
their contents (`val`) compare equal. -/
theorem resolve_key_spec :
    (∀ xs : List PyVal,
      Cache.resolve (.tup xs) = RKey.tupOf (xs.map Cache.resolve)
      ∧ Cache.resolve (.pylist xs) = RKey.tupOf (xs.map Cache.resolve))
    ∧ (∀ xs ys : List PyVal,
        (Cache.resolve (.tup xs) = Cache.resolve (.tup ys)
          ↔ xs.map Cache.resolve = ys.map Cache.resolve))
    ∧ (∀ a b : Int, (Cache.resolve (.int a) = Cache.resolve (.int b)) ↔ a = b)
    ∧ (∀ a b : String, (Cache.resolve (.str a) = Cache.resolve (.str b)) ↔ a = b)
    ∧ (∀ a b : Bool, (Cache.resolve (.bool a) = Cache.resolve (.bool b)) ↔ a = b)
    ∧ (∀ i j : Nat, ∀ v w : Int,
        (Cache.resolve (.obj i v) = Cache.resolve (.obj j w)) ↔ i = j) := by
  refine ⟨?_, ?_, ?_, ?_, ?_, ?_⟩
  · intro xs
    exact ⟨by simp [Cache.resolve, resolveList_eq_map],
           by simp [Cache.resolve, resolveList_eq_map]⟩
  · intro xs ys
    simp [Cache.resolve, resolveList_eq_map, tupOf_inj]
  · intro a b; simp [Cache.resolve]
  · intro a b; simp [Cache.resolve]
  · intro a b; simp [Cache.resolve]
  · intro i j v w; simp [Cache.resolve]

/- ------------------------------------------------------------------ -/
/- Theorems: `Normal` (`stheno/random.py`).                            -/
/- ------------------------------------------------------------------ -/

/-- C8: `sample(num, noise)` with a non-`None` noise is exactly sampling
the noise-augmented distribution: the diagonal operator
`fill_diag(noise, dim)` is added to the variance before the sampling
primitive runs (first conjunct — no noise is ever added to a drawn
sample afterwards), and the resolved mean is added to the drawn sample
exactly when `mean_is_zero` is false (last two conjuncts). -/
theorem sample_noise_before (N : Normal) (sp : Mat → Nat → Mat)
    (num : Nat) (c : Int) :
    N.sample sp num (some c) = (N.noiseAugmented c).sample sp num none
    ∧ (N.mean_is_zero = true →
        N.sample sp num (some c) = Bdense (sp (addM (fillDiag c N.dim) N.var) num))
    ∧ (N.mean_is_zero = false →
        N.sample sp num (some c)
          = Bdense (addMeanBroadcast (sp (addM (fillDiag c N.dim) N.var) num) N.mean)) := by
  obtain ⟨mr, v⟩ := N
  refine ⟨?_, ?_, ?_⟩
  · cases mr <;>
      simp [Normal.sample, Normal.noiseAugmented, Normal.mean_is_zero,
        Normal.mean, Normal.dim]
  · intro h
    cases mr <;> simp_all [Normal.sample, Normal.mean_is_zero]
  · intro h
    cases mr <;> simp_all [Normal.sample, Normal.mean_is_zero]

/-- Witness for C8: a concrete `Normal` with a materialized (nonzero-
flagged) mean adds that mean to the noise-augmented draw. -/
theorem sample_noise_before_witness :
    Normal.sample ⟨.mat [[2]], [[3]]⟩ (fun m _ => m) 1 (some 4)
      = Bdense (addMeanBroadcast
          ((fun (m : Mat) (_ : Nat) => m) (addM (fillDiag 4 1) [[3]]) 1) [[2]]) := by
  exact (sample_noise_before ⟨.mat [[2]], [[3]]⟩ (fun m _ => m) 1 4).2.2 rfl

/-- C9: adding or multiplying a `Normal` with a `Random` operand that is
not a `Normal` raises `NotImplementedError` with a message naming the
operand's type, while a plain (non-`Random`) operand succeeds and returns
a `Normal` for both operations. -/
theorem add_mul_type_errors (N : Normal) (t : String) (c : Int) :
    N.add (.randomOther t)
      = .error (.notImplemented ("Cannot add a normal and a \"" ++ t ++ "\"."))
    ∧ N.mul (.randomOther t)
      = .error (.notImplemented ("Cannot multiply a normal and a f\"" ++ t ++ "\"."))
    ∧ (∃ M : Normal, N.add (.plain c) = .ok M)
    ∧ (∃ M : Normal, N.mul (.plain c) = .ok M) :=
  ⟨rfl, rfl, ⟨_, rfl⟩, ⟨_, rfl⟩⟩

/- ------------------------------------------------------------------ -/
/- Theorems: structured covariance operators (spec-modelled).          -/
/- ------------------------------------------------------------------ -/

theorem diagonal_add_pointwise {n : Nat} (d e : Fin n → ℚ) :
    Matrix.diagonal d + Matrix.diagonal e = Matrix.diagonal (fun i => d i + e i) :=
  Matrix.diagonal_add d e

theorem diagonal_hadamard_pointwise {n : Nat} (d e : Fin n → ℚ) :
    Matrix.hadamard (Matrix.diagonal d) (Matrix.diagonal e)
      = Matrix.diagonal (fun i => d i * e i) := by
  ext i j
  rcases eq_or_ne i j with h | h
  · subst h
    simp [Matrix.hadamard_apply]
  · simp [Matrix.hadamard_apply, Matrix.diagonal_apply_ne _ h]

/-- C3: for every pair of equally shaped structured operators, the dense
materialization of their sum is the elementwise sum of their dense
materializations, and that of their product is the elementwise (Hadamard)
product. -/
theorem spd_mat_homomorphism {n : Nat} (A B : SPDOp n) :
    (A.add B).mat = A.mat + B.mat
    ∧ (A.mul B).mat = Matrix.hadamard A.mat B.mat := by
  constructor
  · cases A <;> cases B <;>
      simp [SPDOp.add, SPDOp.mat, diagonal_add_pointwise]
  · cases A <;> cases B <;>
      simp [SPDOp.mul, SPDOp.mat, diagonal_hadamard_pointwise]

/-- C4: the arithmetic closure table of §4.1 holds exactly for every
structure pair, for `+` and `*` alike; in particular Diagonal + Diagonal
is Diagonal, Diagonal combined with Dense in either order is Dense for
both operations, multiplying any structured operator by a plain scalar
preserves its structure (scalar × Diagonal = Diagonal), and adding a
scalar to any operator — Diagonal and Dense included, in either operand
order since `__radd__` delegates to the same computation — yields
Dense. -/
theorem spd_closure_table {n : Nat} :
    (∀ A B : SPDOp n,
      (A.add B).tag = pairTag A.tag B.tag ∧ (A.mul B).tag = pairTag A.tag B.tag)
    ∧ (∀ d e : Fin n → ℚ,
        ((SPDOp.diagonal d).add (SPDOp.diagonal e)).tag = SPDTag.diagonal)
    ∧ (∀ (d : Fin n → ℚ) (m : Matrix (Fin n) (Fin n) ℚ),
        ((SPDOp.diagonal d).add (SPDOp.dense m)).tag = SPDTag.dense
        ∧ ((SPDOp.dense m).add (SPDOp.diagonal d)).tag = SPDTag.dense
        ∧ ((SPDOp.diagonal d).mul (SPDOp.dense m)).tag = SPDTag.dense
        ∧ ((SPDOp.dense m).mul (SPDOp.diagonal d)).tag = SPDTag.dense)
    ∧ (∀ (s : ℚ) (A : SPDOp n), (A.scalarMul s).tag = A.tag)
    ∧ (∀ (s : ℚ) (d : Fin n → ℚ),
        ((SPDOp.diagonal d).scalarMul s).tag = SPDTag.diagonal)
    ∧ (∀ (s : ℚ) (A : SPDOp n), (A.scalarAdd s).tag = SPDTag.dense) := by
  refine ⟨?_, ?_, ?_, ?_, ?_, ?_⟩
  · intro A B
    constructor <;> cases A <;> cases B <;> rfl
  · intro d e; rfl
  · intro d m; exact ⟨rfl, rfl, rfl, rfl⟩
  · intro s A; cases A <;> rfl
  · intro s d; rfl
  · intro s A; rfl

/-- C5: every inversion-requiring operation on a LowRank operator whose
factor has fewer columns than the dimension (hence rank `< n`, singular
by construction) fails with the singular-operator `RuntimeError` and
never returns a value. -/
theorem lowRank_singular_errors {n k p q : Nat} (f : Matrix (Fin n) (Fin k) ℚ)
    (hk : k < n) (a b : Matrix (Fin n) (Fin p) ℚ)
    (bm : Matrix (Fin n) (Fin q) ℚ) :
    (SPDOp.lowRank k f).mah_dist2 a = .error singularErr
    ∧ (SPDOp.lowRank k f).mah_dist2two a b = .error singularErr
    ∧ (SPDOp.lowRank k f).quadratic_form a = .error singularErr
    ∧ (SPDOp.lowRank k f).quadratic_form2 a bm = .error singularErr
    ∧ (SPDOp.lowRank k f).quadratic_form_diag a = .error singularErr
    ∧ (SPDOp.lowRank k f).inv_prod bm = .error singularErr
    ∧ (SPDOp.lowRank k f).logdet = .error singularErr := by
  have hs : (SPDOp.lowRank (n := n) k f).isSingular = true := by
    simp [SPDOp.isSingular, hk]
  simp [SPDOp.mah_dist2, SPDOp.mah_dist2two, SPDOp.quadratic_form,
    SPDOp.quadratic_form2, SPDOp.quadratic_form_diag, SPDOp.inv_prod,
    SPDOp.logdet, hs]

/-- Witness for C5: a rank-deficient 3×2 LowRank factor makes `logdet`
and `inv_prod` fail with the singular-operator error. -/
theorem lowRank_singular_errors_witness :
    (SPDOp.lowRank (n := 3) 2 0).logdet = .error singularErr
    ∧ (SPDOp.lowRank (n := 3) 2 0).inv_prod (0 : Matrix (Fin 3) (Fin 1) ℚ)
        = .error singularErr := by
  have h := lowRank_singular_errors (n := 3) (k := 2) (p := 1) (q := 1)
      0 (by decide) 0 0 0
  exact ⟨h.2.2.2.2.2.2, h.2.2.2.2.2.1⟩

/- ------------------------------------------------------------------ -/
/- Theorems: the graph conditioning engine (spec-modelled).            -/
/- ------------------------------------------------------------------ -/

/-- Model consistency: the kernel table respects the cross-covariance
propagation rule of §4.5 in each argument. -/
theorem kernelAt_sumP {m : Nat} (G : GraphModel m) (p q r : DerivedProcess) :
    kernelAt G (p.sumP q) r = kernelAt G p r + kernelAt G q r := by
  simp [kernelAt, DerivedProcess.sumP, add_mul, add_smul]

theorem selfSum_coeff (n : Nat) : (selfSum n).coeff = (n : ℚ) := by
  induction n with
  | zero => rfl
  | succ n ih => simp [selfSum, DerivedProcess.sumP, baseP, ih]

theorem mul_matInv_of_det_ne_zero {n : Nat} (M : Matrix (Fin n) (Fin n) ℚ)
    (h : M.det ≠ 0) : M * matInv M = 1 := by
  rw [matInv, Matrix.mul_smul, Matrix.mul_adjugate, smul_smul,
    inv_mul_cancel₀ h, one_smul]

/-- C2: summing the zero-mean base process `p1` with itself `n` times
yields a process whose kernel matrix at any finite input set is `n²`
times `p1`'s, whose mean there is zero, and whose posterior mean after
conditioning on the observation `(p1(x), y)` is `n·y` (for `n = 5`, five
times the observed values), provided the prior kernel matrix is
invertible. -/
theorem selfSum_scaling {m : Nat} (G : GraphModel m) (n : Nat)
    (y : Matrix (Fin m) (Fin 1) ℚ) (hK : G.K.det ≠ 0) :
    kernelAt G (selfSum n) (selfSum n) = ((n : ℚ) ^ 2) • G.K
    ∧ meanAt G (selfSum n) = 0
    ∧ postMean G (selfSum n) y = (n : ℚ) • y := by
  refine ⟨?_, rfl, ?_⟩
  · simp [kernelAt, selfSum_coeff]
    ring_nf
  · simp only [postMean, meanAt, kernelAt, selfSum_coeff, baseP, mul_one,
      zero_add, sub_zero]
    rw [Matrix.smul_mul, Matrix.smul_mul, mul_matInv_of_det_ne_zero G.K hK,
      Matrix.one_mul]

/-- Witness for C2: on a one-point input set with unit prior kernel,
summing the base process five times scales the kernel by 25 and the
posterior mean after observing `y = 7` is `35`. -/
theorem selfSum_scaling_witness :
    kernelAt (⟨1⟩ : GraphModel 1) (selfSum 5) (selfSum 5)
        = ((5 : ℚ) ^ 2) • (1 : Matrix (Fin 1) (Fin 1) ℚ)
    ∧ postMean (⟨1⟩ : GraphModel 1) (selfSum 5) (Matrix.of fun _ _ => (7 : ℚ))
        = (5 : ℚ) • Matrix.of fun _ _ => (7 : ℚ) := by
  have h := selfSum_scaling (⟨1⟩ : GraphModel 1) 5 (Matrix.of fun _ _ => (7 : ℚ))
      (by simp)
  exact ⟨by simpa using h.1, by simpa using h.2.2⟩

end Stheno
